import Mathlib

/-!
Verification of the meeting-analysis browser application (React/TypeScript).

The development shallowly embeds the application's logic:

* `src/services/geminiService.ts` — response validation of `analyzeMeetingAudio`
  and the context composition of `answerQuestionFromMeetings`;
* `src/App.tsx` — the analysis edit state machine (speaker/transcript/section
  editors), the save/delete transitions on the saved-meetings collection, and
  the localStorage load/persist effects;
* `types.ts` — the `SpeakerTurn`, `AnalysisResult` and `Meeting` records.

The browser built-ins the code uses (`JSON.parse`, `JSON.stringify`, string
trimming, array sorting, object spread) are modelled explicitly below, at the
level of detail the claims need.
-/

/-! ## JSON values

`JSON.parse` / `JSON.stringify` operate on JSON values.  The model covers
null, booleans, strings, arrays and objects — the only value kinds occurring
in this application's payloads (the analysis response schema and the persisted
`Meeting` records contain only strings, arrays and objects).  Numeric literals
never occur in the application's data and are not modelled.  Objects are
association lists in insertion order, which is how JavaScript objects iterate
and serialize. -/

mutual
inductive Json where
  | null
  | bool (b : Bool)
  | str (s : String)
  | arr (xs : JsonList)
  | obj (kvs : JsonMembers)
deriving DecidableEq

inductive JsonList where
  | nil
  | cons (hd : Json) (tl : JsonList)
deriving DecidableEq

inductive JsonMembers where
  | nil
  | cons (key : String) (val : Json) (tl : JsonMembers)
deriving DecidableEq
end

/-- Lowercase hexadecimal digit, as emitted by `JSON.stringify` in
unicode escapes. -/
def hexDigitChar (n : Nat) : Char :=
  Char.ofNat (if n < 10 then '0'.toNat + n else 'a'.toNat + n - 10)

/-- The escaping `JSON.stringify` applies to one character of a string:
quote and backslash get a backslash escape, the named control characters get
their short escapes, the remaining control characters below 0x20 get a
`\u00XX` escape, and every other character is emitted verbatim. -/
def escapeChar (c : Char) : List Char :=
  if c = '"' then ['\\', '"']
  else if c = '\\' then ['\\', '\\']
  else if c = Char.ofNat 8 then ['\\', 'b']
  else if c = '\t' then ['\\', 't']
  else if c = '\n' then ['\\', 'n']
  else if c = Char.ofNat 12 then ['\\', 'f']
  else if c = Char.ofNat 13 then ['\\', 'r']
  else if c.toNat < 32 then
    '\\' :: 'u' :: '0' :: '0' :: [hexDigitChar (c.toNat / 16), hexDigitChar (c.toNat % 16)]
  else [c]

def escapeList (cs : List Char) : List Char :=
  (cs.map escapeChar).flatten

/-- A JSON string literal: quote, escaped content, quote. -/
def quoteString (s : String) : List Char :=
  '"' :: escapeList s.data ++ ['"']

mutual
/-- `JSON.stringify` (compact form, no indent argument — exactly how
`App.tsx` line 64 calls it). -/
def stringifyVal : Json → List Char
  | .null => "null".data
  | .bool true => "true".data
  | .bool false => "false".data
  | .str s => quoteString s
  | .arr .nil => "[]".data
  | .arr (.cons x xs) => '[' :: stringifyVal x ++ stringifyElems xs ++ [']']
  | .obj .nil => ['\x7b', '\x7d']
  | .obj (.cons k v kvs) =>
    '\x7b' :: (quoteString k ++ ':' :: stringifyVal v) ++ stringifyMembers kvs ++ ['\x7d']

/-- Remaining array elements, each preceded by a comma. -/
def stringifyElems : JsonList → List Char
  | .nil => []
  | .cons x xs => ',' :: stringifyVal x ++ stringifyElems xs

/-- Remaining object members, each preceded by a comma. -/
def stringifyMembers : JsonMembers → List Char
  | .nil => []
  | .cons k v kvs => ',' :: (quoteString k ++ ':' :: stringifyVal v) ++ stringifyMembers kvs
end

def stringifyJson (j : Json) : String :=
  String.mk (stringifyVal j)

/-- The whitespace characters the JSON grammar allows between tokens. -/
def isWsChar (c : Char) : Bool :=
  c = ' ' || c = '\t' || c = '\n' || c = '\r'

def skipWs : List Char → List Char
  | [] => []
  | c :: cs => if isWsChar c then skipWs cs else c :: cs

def parseHexDigit (c : Char) : Option Nat :=
  if '0' ≤ c ∧ c ≤ '9' then some (c.toNat - '0'.toNat)
  else if 'a' ≤ c ∧ c ≤ 'f' then some (c.toNat - 'a'.toNat + 10)
  else if 'A' ≤ c ∧ c ≤ 'F' then some (c.toNat - 'A'.toNat + 10)
  else none

/-- Decodes the four hex digits of a `\uXXXX` escape. -/
def decodeHex4 : List Char → Option (Char × List Char)
  | h1 :: h2 :: h3 :: h4 :: r =>
    match parseHexDigit h1, parseHexDigit h2, parseHexDigit h3, parseHexDigit h4 with
    | some a, some b, some c, some d =>
      some (Char.ofNat (a * 4096 + b * 256 + c * 16 + d), r)
    | _, _, _, _ => none
  | _ => none

/-- Decodes one escape sequence (the characters after a backslash): the
short escapes and `\uXXXX`, as `JSON.parse` accepts them.  Returns the
decoded character and the remaining input. -/
def decodeEscape : List Char → Option (Char × List Char)
  | [] => none
  | e :: r =>
    if e = '"' then some ('"', r)
    else if e = '\\' then some ('\\', r)
    else if e = '/' then some ('/', r)
    else if e = 'b' then some (Char.ofNat 8, r)
    else if e = 'f' then some (Char.ofNat 12, r)
    else if e = 'n' then some ('\n', r)
    else if e = 'r' then some (Char.ofNat 13, r)
    else if e = 't' then some ('\t', r)
    else if e = 'u' then decodeHex4 r
    else none

/-- Parses the body of a JSON string literal after the opening quote, up to
and including the closing quote; returns the decoded characters and the
remaining input.  Raw control characters are rejected, escape sequences are
decoded — the behaviour of `JSON.parse` on string literals.  Fuel bounds the
number of decoded characters; callers pass enough for their input. -/
def parseStringBody : Nat → List Char → Option (List Char × List Char)
  | 0, _ => none
  | _ + 1, [] => none
  | n + 1, c :: rest =>
    if c = '"' then some ([], rest)
    else if c = '\\' then
      match decodeEscape rest with
      | some (e, r) => (parseStringBody n r).map (fun p => (e :: p.1, p.2))
      | none => none
    else if c.toNat < 32 then none
    else (parseStringBody n rest).map (fun p => (c :: p.1, p.2))

mutual
/-- Recursive-descent model of `JSON.parse` on one value, with a fuel
argument bounding the recursion depth (the wrapper `parseJson` supplies
enough fuel for any input it is given). -/
def parseVal : Nat → List Char → Option (Json × List Char)
  | 0, _ => none
  | n + 1, cs =>
    match skipWs cs with
    | 'n' :: 'u' :: 'l' :: 'l' :: rest => some (.null, rest)
    | 't' :: 'r' :: 'u' :: 'e' :: rest => some (.bool true, rest)
    | 'f' :: 'a' :: 'l' :: 's' :: 'e' :: rest => some (.bool false, rest)
    | '"' :: rest => (parseStringBody n rest).map (fun p => (.str (String.mk p.1), p.2))
    | '[' :: rest =>
      let rest1 := skipWs rest
      if rest1.headD ' ' = ']' then some (.arr .nil, rest1.tail)
      else (parseElems n rest1).map (fun p => (.arr p.1, p.2))
    | '\x7b' :: rest =>
      let rest1 := skipWs rest
      if rest1.headD ' ' = '\x7d' then some (.obj .nil, rest1.tail)
      else (parseMembers n rest1).map (fun p => (.obj p.1, p.2))
    | _ => none

/-- Parses the elements of a non-empty array, up to and including the
closing bracket. -/
def parseElems : Nat → List Char → Option (JsonList × List Char)
  | 0, _ => none
  | n + 1, cs =>
    match parseVal n cs with
    | some (x, rest) =>
      match skipWs rest with
      | ',' :: rest2 => (parseElems n rest2).map (fun p => (.cons x p.1, p.2))
      | ']' :: rest2 => some (.cons x .nil, rest2)
      | _ => none
    | none => none

/-- Parses the members of a non-empty object, up to and including the
closing brace. -/
def parseMembers : Nat → List Char → Option (JsonMembers × List Char)
  | 0, _ => none
  | n + 1, cs =>
    match skipWs cs with
    | '"' :: rest =>
      match parseStringBody n rest with
      | some (k, rest1) =>
        match skipWs rest1 with
        | ':' :: rest2 =>
          match parseVal n rest2 with
          | some (v, rest3) =>
            match skipWs rest3 with
            | ',' :: rest4 => (parseMembers n rest4).map (fun p => (.cons (String.mk k) v p.1, p.2))
            | '\x7d' :: rest4 => some (.cons (String.mk k) v .nil, rest4)
            | _ => none
          | none => none
        | _ => none
      | none => none
    | _ => none
end

/-- `JSON.parse`: parses one value and requires only whitespace to follow.
Any syntax error makes `JSON.parse` throw, modelled as `none`. -/
def parseJson (s : String) : Option Json :=
  match parseVal (2 * s.data.length + 2) s.data with
  | some (j, rest) => if skipWs rest = [] then some j else none
  | none => none

/-! ## Round trip: `parseJson` recovers what `stringifyJson` wrote -/

theorem skipWs_cons_of_not_ws {c : Char} (h : isWsChar c = false) (cs : List Char) :
    skipWs (c :: cs) = c :: cs := by
  simp [skipWs, h]

theorem parseHexDigit_hexDigitChar : ∀ m < 16, parseHexDigit (hexDigitChar m) = some m := by
  decide

/-- One parsing step undoes the escaping of one character. -/
theorem parseStringBody_escapeChar (c : Char) (tail : List Char) (m : Nat) :
    parseStringBody (m + 1) (escapeChar c ++ tail) =
      (parseStringBody m tail).map (fun p => (c :: p.1, p.2)) := by
  unfold escapeChar
  split_ifs with h1 h2 h3 h4 h5 h6 h7 h8
  · subst h1; rfl
  · subst h2; rfl
  · subst h3; rfl
  · subst h4; rfl
  · subst h5; rfl
  · subst h6; rfl
  · subst h7; rfl
  · have hd1 : parseHexDigit (hexDigitChar (c.toNat / 16)) = some (c.toNat / 16) :=
      parseHexDigit_hexDigitChar _ (by omega)
    have hd2 : parseHexDigit (hexDigitChar (c.toNat % 16)) = some (c.toNat % 16) :=
      parseHexDigit_hexDigitChar _ (by omega)
    have hchar : Char.ofNat (c.toNat / 16 * 16 + c.toNat % 16) = c := by
      rw [show c.toNat / 16 * 16 + c.toNat % 16 = c.toNat by omega]
      exact Char.ofNat_toNat c
    have hdec : decodeEscape
        ('u' :: '0' :: '0' :: hexDigitChar (c.toNat / 16) :: hexDigitChar (c.toNat % 16) :: tail) =
        some (c, tail) := by
      show decodeHex4
          ('0' :: '0' :: hexDigitChar (c.toNat / 16) :: hexDigitChar (c.toNat % 16) :: tail) =
        some (c, tail)
      rw [decodeHex4, show parseHexDigit '0' = some 0 from by decide, hd1, hd2]
      simp [hchar]
    simp only [List.cons_append, List.nil_append]
    rw [parseStringBody, if_neg (by decide), if_pos rfl, hdec]
  · simp only [List.singleton_append]
    rw [parseStringBody]
    simp [h1, h2, h8]

theorem escapeChar_length_pos (c : Char) : 1 ≤ (escapeChar c).length := by
  unfold escapeChar
  split_ifs <;> simp

/-- The string-literal body parser decodes exactly what `escapeList`
encoded, given fuel for every decoded character. -/
theorem parseStringBody_escape (cs : List Char) (rest : List Char) :
    ∀ n, cs.length + 1 ≤ n →
      parseStringBody n (escapeList cs ++ '"' :: rest) = some (cs, rest) := by
  induction cs with
  | nil =>
    intro n hn
    obtain _ | m := n
    · omega
    · rfl
  | cons c cs ih =>
    intro n hn
    obtain _ | m := n
    · omega
    · have h : escapeList (c :: cs) = escapeChar c ++ escapeList cs := by
        simp [escapeList]
      rw [h, List.append_assoc, parseStringBody_escapeChar c _ m,
        ih m (by simp at hn; omega)]
      rfl

theorem escapeList_cons (c : Char) (cs : List Char) :
    escapeList (c :: cs) = escapeChar c ++ escapeList cs := by
  simp [escapeList]

theorem length_le_escapeList (cs : List Char) : cs.length ≤ (escapeList cs).length := by
  induction cs with
  | nil => simp [escapeList]
  | cons c cs ih =>
    rw [escapeList_cons, List.length_append, List.length_cons]
    have := escapeChar_length_pos c
    omega

/-- Serialized values are nonempty and begin with a token character that is
neither whitespace nor a closing bracket or brace. -/
theorem stringifyVal_head (j : Json) :
    ∃ c t, stringifyVal j = c :: t ∧ isWsChar c = false ∧ c ≠ ']' ∧ c ≠ '\x7d' := by
  have hside : ∀ c : Char, c ∈ ['n', 't', 'f', '"', '[', '\x7b'] →
      isWsChar c = false ∧ c ≠ ']' ∧ c ≠ '\x7d' := by decide
  cases j with
  | null => exact ⟨'n', _, rfl, hside _ (by decide)⟩
  | bool b =>
    cases b with
    | false => exact ⟨'f', _, rfl, hside _ (by decide)⟩
    | true => exact ⟨'t', _, rfl, hside _ (by decide)⟩
  | str s => exact ⟨'"', _, rfl, hside _ (by decide)⟩
  | arr xs =>
    cases xs with
    | nil => exact ⟨'[', _, rfl, hside _ (by decide)⟩
    | cons x tl => exact ⟨'[', _, rfl, hside _ (by decide)⟩
  | obj kvs =>
    cases kvs with
    | nil => exact ⟨'\x7b', _, rfl, hside _ (by decide)⟩
    | cons k v tl => exact ⟨'\x7b', _, rfl, hside _ (by decide)⟩

theorem skipWs_stringify_append (j : Json) (t : List Char) :
    skipWs (stringifyVal j ++ t) = stringifyVal j ++ t := by
  obtain ⟨c, u, h, hws, -, -⟩ := stringifyVal_head j
  rw [h, List.cons_append, skipWs_cons_of_not_ws hws]

theorem parseVal_quote (n : Nat) (cs : List Char) :
    parseVal (n + 1) ('"' :: cs) =
      (parseStringBody n cs).map (fun p => (.str (String.mk p.1), p.2)) := rfl

theorem parseVal_bracket (n : Nat) (cs : List Char) :
    parseVal (n + 1) ('[' :: cs) =
      if (skipWs cs).headD ' ' = ']' then some (.arr .nil, (skipWs cs).tail)
      else (parseElems n (skipWs cs)).map (fun p => (.arr p.1, p.2)) := rfl

theorem parseVal_brace (n : Nat) (cs : List Char) :
    parseVal (n + 1) ('\x7b' :: cs) =
      if (skipWs cs).headD ' ' = '\x7d' then some (.obj .nil, (skipWs cs).tail)
      else (parseMembers n (skipWs cs)).map (fun p => (.obj p.1, p.2)) := rfl

theorem parseElems_succ (n : Nat) (cs : List Char) :
    parseElems (n + 1) cs =
      match parseVal n cs with
      | some (x, rest) =>
        match skipWs rest with
        | ',' :: rest2 => (parseElems n rest2).map (fun p => (.cons x p.1, p.2))
        | ']' :: rest2 => some (.cons x .nil, rest2)
        | _ => none
      | none => none := rfl

theorem parseMembers_quote (n : Nat) (cs : List Char) :
    parseMembers (n + 1) ('"' :: cs) =
      match parseStringBody n cs with
      | some (k, rest1) =>
        match skipWs rest1 with
        | ':' :: rest2 =>
          match parseVal n rest2 with
          | some (v, rest3) =>
            match skipWs rest3 with
            | ',' :: rest4 => (parseMembers n rest4).map (fun p => (.cons (String.mk k) v p.1, p.2))
            | '\x7d' :: rest4 => some (.cons (String.mk k) v .nil, rest4)
            | _ => none
          | none => none
        | _ => none
      | none => none := rfl

theorem parse_stringify_fuel (n : Nat) :
    (∀ j rest, (stringifyVal j).length ≤ n →
      parseVal n (stringifyVal j ++ rest) = some (j, rest)) ∧
    (∀ x xs rest, (stringifyVal x).length + (stringifyElems xs).length + 1 ≤ n →
      parseElems n ((stringifyVal x ++ stringifyElems xs) ++ ']' :: rest) = some (.cons x xs, rest)) ∧
    (∀ k v kvs rest,
      (quoteString k).length + (stringifyVal v).length + (stringifyMembers kvs).length + 2 ≤ n →
      parseMembers n ((quoteString k ++ ':' :: stringifyVal v ++ stringifyMembers kvs) ++ '\x7d' :: rest) =
        some (.cons k v kvs, rest)) := by
  induction n using Nat.strong_induction_on with
  | _ n IH =>
  obtain _ | m := n
  · refine ⟨?_, ?_, ?_⟩
    · intro j rest hlen
      obtain ⟨c, t, h, -, -, -⟩ := stringifyVal_head j
      rw [h] at hlen
      simp at hlen
    · intro x xs rest hlen
      omega
    · intro k v kvs rest hlen
      omega
  · have Pm := (IH m (Nat.lt_succ_self m)).1
    have Qm := (IH m (Nat.lt_succ_self m)).2.1
    have Rm := (IH m (Nat.lt_succ_self m)).2.2
    refine ⟨?_, ?_, ?_⟩
    · intro j rest hlen
      cases j with
      | null => rfl
      | bool b => cases b <;> rfl
      | str s =>
        have hfuel : s.data.length + 1 ≤ m := by
          have h1 := length_le_escapeList s.data
          simp only [stringifyVal, quoteString, List.length_cons, List.length_append,
            List.length_singleton] at hlen
          omega
        show parseVal (m + 1) (('"' :: (escapeList s.data ++ ['"'])) ++ rest) = some (.str s, rest)
        rw [List.cons_append, parseVal_quote,
          show (escapeList s.data ++ ['"']) ++ rest = escapeList s.data ++ '"' :: rest from by simp,
          parseStringBody_escape s.data rest m hfuel]
        rfl
      | arr xs =>
        cases xs with
        | nil => rfl
        | cons x tl =>
          have hfuel : (stringifyVal x).length + (stringifyElems tl).length + 1 ≤ m := by
            simp only [stringifyVal, List.length_cons, List.length_append,
              List.length_singleton] at hlen
            omega
          obtain ⟨c, t, hct, hws, hnb, -⟩ := stringifyVal_head x
          show parseVal (m + 1)
              (('[' :: (stringifyVal x ++ stringifyElems tl ++ [']'])) ++ rest) =
            some (.arr (.cons x tl), rest)
          rw [List.cons_append, parseVal_bracket,
            show (stringifyVal x ++ stringifyElems tl ++ [']']) ++ rest =
              stringifyVal x ++ (stringifyElems tl ++ ']' :: rest) from by simp,
            skipWs_stringify_append, hct]
          simp only [List.cons_append, List.headD_cons]
          rw [if_neg hnb, ← List.cons_append, ← hct,
            show stringifyVal x ++ (stringifyElems tl ++ ']' :: rest) =
              (stringifyVal x ++ stringifyElems tl) ++ ']' :: rest from by simp,
            Qm x tl rest hfuel]
          rfl
      | obj kvs =>
        cases kvs with
        | nil => rfl
        | cons k v tl =>
          have hfuel : (quoteString k).length + (stringifyVal v).length +
              (stringifyMembers tl).length + 2 ≤ m := by
            simp only [stringifyVal, List.length_cons, List.length_append,
              List.length_singleton] at hlen
            omega
          show parseVal (m + 1)
              (('\x7b' :: ((quoteString k ++ ':' :: stringifyVal v) ++ stringifyMembers tl ++ ['\x7d'])) ++ rest) =
            some (.obj (.cons k v tl), rest)
          rw [List.cons_append, parseVal_brace,
            show ((quoteString k ++ ':' :: stringifyVal v) ++ stringifyMembers tl ++ ['\x7d']) ++ rest =
              (quoteString k ++ ':' :: stringifyVal v ++ stringifyMembers tl) ++ '\x7d' :: rest from by simp]
          have hform : (quoteString k ++ ':' :: stringifyVal v ++ stringifyMembers tl) ++ '\x7d' :: rest =
              '"' :: (escapeList k.data ++
                ('"' :: (':' :: (stringifyVal v ++ (stringifyMembers tl ++ '\x7d' :: rest))))) := by
            simp [quoteString]
          rw [hform, skipWs_cons_of_not_ws (by decide), List.headD_cons, if_neg (by decide),
            ← hform, Rm k v tl rest hfuel]
          rfl
    · intro x xs rest hlen
      have hfx : (stringifyVal x).length ≤ m := by omega
      rw [parseElems_succ, List.append_assoc, Pm x (stringifyElems xs ++ ']' :: rest) hfx]
      cases xs with
      | nil => rfl
      | cons y ys =>
        have hfuel : (stringifyVal y).length + (stringifyElems ys).length + 1 ≤ m := by
          simp only [stringifyElems, List.length_cons, List.length_append] at hlen
          omega
        show (parseElems m ((stringifyVal y ++ stringifyElems ys) ++ ']' :: rest)).map
            (fun p => (JsonList.cons x p.1, p.2)) = some (.cons x (.cons y ys), rest)
        rw [Qm y ys rest hfuel]
        rfl
    · intro k v kvs rest hlen
      have hq : (quoteString k).length = (escapeList k.data).length + 2 := by
        simp [quoteString]
      have hfk : k.data.length + 1 ≤ m := by
        have h1 := length_le_escapeList k.data
        omega
      have hfv : (stringifyVal v).length ≤ m := by omega
      have hshape : (quoteString k ++ ':' :: stringifyVal v ++ stringifyMembers kvs) ++ '\x7d' :: rest =
          '"' :: (escapeList k.data ++
            '"' :: (':' :: (stringifyVal v ++ (stringifyMembers kvs ++ '\x7d' :: rest)))) := by
        simp [quoteString]
      rw [hshape, parseMembers_quote,
        parseStringBody_escape k.data
          (':' :: (stringifyVal v ++ (stringifyMembers kvs ++ '\x7d' :: rest))) m hfk]
      show (match parseVal m (stringifyVal v ++ (stringifyMembers kvs ++ '\x7d' :: rest)) with
        | some (v2, rest3) =>
          match skipWs rest3 with
          | ',' :: rest4 =>
            (parseMembers m rest4).map (fun p => (JsonMembers.cons (String.mk k.data) v2 p.1, p.2))
          | '\x7d' :: rest4 => some (JsonMembers.cons (String.mk k.data) v2 JsonMembers.nil, rest4)
          | _ => none
        | none => none) = some (JsonMembers.cons k v kvs, rest)
      rw [Pm v (stringifyMembers kvs ++ '\x7d' :: rest) hfv]
      cases kvs with
      | nil => rfl
      | cons k2 v2 tl =>
        have hfuel : (quoteString k2).length + (stringifyVal v2).length +
            (stringifyMembers tl).length + 2 ≤ m := by
          simp only [stringifyMembers, List.length_cons, List.length_append] at hlen
          omega
        show (parseMembers m (((quoteString k2 ++ ':' :: stringifyVal v2) ++ stringifyMembers tl) ++ '\x7d' :: rest)).map
            (fun p => (JsonMembers.cons (String.mk k.data) v p.1, p.2)) =
          some (.cons k v (.cons k2 v2 tl), rest)
        rw [show ((quoteString k2 ++ ':' :: stringifyVal v2) ++ stringifyMembers tl) ++ '\x7d' :: rest =
            (quoteString k2 ++ ':' :: stringifyVal v2 ++ stringifyMembers tl) ++ '\x7d' :: rest from by simp,
          Rm k2 v2 tl rest hfuel]
        rfl

/-- `JSON.parse` recovers exactly the value `JSON.stringify` serialized. -/
theorem parseJson_stringifyJson (j : Json) : parseJson (stringifyJson j) = some j := by
  have hP := (parse_stringify_fuel (2 * (stringifyVal j).length + 2)).1 j [] (by omega)
  rw [List.append_nil] at hP
  unfold parseJson stringifyJson
  rw [show (String.mk (stringifyVal j)).data = stringifyVal j from rfl, hP]
  rfl

/-! ## JavaScript string primitives

Code-unit comparison (JavaScript string relational operators and the default
sort order), `String.prototype.trim`, and the file-extension regex used for
meeting titles. -/

/-- Lexicographic code-point order on character lists: the order JavaScript
string comparison implements (identical to code-unit order for the
basic-plane strings this application handles). -/
def charListLe : List Char → List Char → Bool
  | [], _ => true
  | _ :: _, [] => false
  | x :: xs, y :: ys =>
    if x.toNat < y.toNat then true
    else if y.toNat < x.toNat then false
    else charListLe xs ys

def strLe (a b : String) : Bool :=
  charListLe a.data b.data

theorem charListLe_total (a b : List Char) : charListLe a b = true ∨ charListLe b a = true := by
  induction a generalizing b with
  | nil => left; rfl
  | cons x xs ih =>
    cases b with
    | nil => right; rfl
    | cons y ys =>
      by_cases h1 : x.toNat < y.toNat
      · left; simp [charListLe, h1]
      · by_cases h2 : y.toNat < x.toNat
        · right; simp [charListLe, h2]
        · rcases ih ys with h | h
          · left; simp [charListLe, h1, h2, h]
          · right; simp [charListLe, h1, h2, h]

theorem charListLe_trans {a b c : List Char} (hab : charListLe a b = true)
    (hbc : charListLe b c = true) : charListLe a c = true := by
  induction a generalizing b c with
  | nil => rfl
  | cons x xs ih =>
    cases b with
    | nil => simp [charListLe] at hab
    | cons y ys =>
      cases c with
      | nil => simp [charListLe] at hbc
      | cons z zs =>
        simp only [charListLe] at hab hbc ⊢
        by_cases h1 : x.toNat < y.toNat
        · by_cases h2 : y.toNat < z.toNat
          · simp [show x.toNat < z.toNat by omega]
          · by_cases h3 : z.toNat < y.toNat
            · simp [h2, h3] at hbc
            · simp [show x.toNat < z.toNat by omega]
        · by_cases h2 : y.toNat < x.toNat
          · simp [h1, h2] at hab
          · by_cases h3 : y.toNat < z.toNat
            · simp [show x.toNat < z.toNat by omega]
            · by_cases h4 : z.toNat < y.toNat
              · simp [h3, h4] at hbc
              · rw [if_neg h1, if_neg h2] at hab
                rw [if_neg h3, if_neg h4] at hbc
                rw [if_neg (show ¬ x.toNat < z.toNat by omega),
                  if_neg (show ¬ z.toNat < x.toNat by omega)]
                exact ih hab hbc

/-- The whitespace class of JavaScript `String.prototype.trim` (space, tab,
line terminators, vertical tab, form feed, no-break space, BOM; the exotic
Unicode space separators such as U+2000-200A are not modelled). -/
def isJsWsChar (c : Char) : Bool :=
  c = ' ' || c = '\t' || c = '\n' || c = '\r' || c = Char.ofNat 11 || c = Char.ofNat 12 ||
    c = Char.ofNat 160 || c = Char.ofNat 0x2028 || c = Char.ofNat 0x2029 || c = Char.ofNat 0xFEFF

/-- JavaScript `String.prototype.trim`: strips leading and trailing
whitespace. -/
def jsTrim (s : String) : String :=
  String.mk (((s.data.dropWhile isJsWsChar).reverse.dropWhile isJsWsChar).reverse)

/-- `name.replace(/\.[^/.]+$/, "")` from `App.tsx` line 133: removes the
final dot and everything after it when what follows the last dot is nonempty
and contains neither a dot nor a slash; otherwise leaves the name unchanged. -/
def stripExtension (s : String) : String :=
  let r := s.data.reverse
  let ext := r.takeWhile (fun c => !(c == '.') && !(c == '/'))
  match r.drop ext.length with
  | '.' :: base => if ext.isEmpty then s else String.mk base.reverse
  | _ => s

/-! ## AI gateway: `analyzeMeetingAudio` response handling
(`src/services/geminiService.ts` lines 66-94) -/

/-- JavaScript truthiness of a field-access result: `undefined` (absent
field) and `null` are falsy, a boolean is itself, a string is truthy iff
nonempty, arrays and objects are truthy.  (Field access on a non-object
throws or yields `undefined`; inside the function's `try` block both routes
end in the same catch-all failure, so `none` models them faithfully.) -/
def jsTruthy : Option Json → Bool
  | none => false
  | some Json.null => false
  | some (Json.bool b) => b
  | some (Json.str s) => !(s == "")
  | some (Json.arr _) => true
  | some (Json.obj _) => true

def jsonMembersLookup : JsonMembers → String → Option Json
  | JsonMembers.nil, _ => none
  | JsonMembers.cons key v tl, k => if key = k then some v else jsonMembersLookup tl k

def jsonGetField : Json → String → Option Json
  | Json.obj kvs, k => jsonMembersLookup kvs k
  | _, _ => none

/-- The "Basic validation" of `geminiService.ts` line 84:
`!parsedResult.transcript || !parsedResult.summary || !parsedResult.actionItems`
negated — the parsed payload passes iff all three fields are truthy. -/
def validateAnalysis (j : Json) : Bool :=
  jsTruthy (jsonGetField j ("transcript")) && jsTruthy (jsonGetField j ("summary")) &&
    jsTruthy (jsonGetField j ("actionItems"))

/-- The single message every failure of `analyzeMeetingAudio` surfaces (the
catch block rethrows everything with it). -/
def apiFailureMsg : String :=
  "Failed to process audio with Gemini API."

/-- Response handling of `analyzeMeetingAudio` (`geminiService.ts` lines
76-93) as a function of the remote call's response text: an absent or empty
body fails, unparsable JSON fails, a parsed payload with a falsy
`transcript`, `summary` or `actionItems` field fails, and otherwise the
parsed payload is returned unchanged (the `as AnalysisResult` cast checks
nothing further). -/
def analyzeMeetingAudio (responseText : Option String) : Except String Json :=
  match responseText with
  | none => Except.error apiFailureMsg
  | some t =>
    if t = "" then Except.error apiFailureMsg
    else
      match parseJson t with
      | none => Except.error apiFailureMsg
      | some j => if validateAnalysis j then Except.ok j else Except.error apiFailureMsg

def jsonListAll (p : Json → Bool) : JsonList → Bool
  | JsonList.nil => true
  | JsonList.cons x xs => p x && jsonListAll p xs

/-- Modelled from the spec: one element of a well-formed transcript is an
object carrying string `speaker` and `text` fields — the "{speaker, text}
pairs" of the spec's response-handling rule.  `geminiService.ts` implements
no such check; this definition exists to state the spec's requirement. -/
def isSpeakerTurnJson (j : Json) : Bool :=
  match j with
  | Json.obj kvs =>
    (match jsonMembersLookup kvs ("speaker") with
     | some (Json.str _) => true
     | _ => false) &&
    (match jsonMembersLookup kvs ("text") with
     | some (Json.str _) => true
     | _ => false)
  | _ => false

/-- Modelled from the spec: "the transcript is a well-formed sequence of
`{speaker, text}` pairs".  Used only to state what the code fails to
check. -/
def specWellFormedTranscript (o : Option Json) : Bool :=
  match o with
  | some (Json.arr xs) => jsonListAll isSpeakerTurnJson xs
  | _ => false

/-! ## Data model (`types.ts`) -/

structure SpeakerTurn where
  speaker : String
  text : String
deriving DecidableEq

structure AnalysisResult where
  transcript : List SpeakerTurn
  summary : String
  actionItems : String
deriving DecidableEq

structure Meeting where
  id : String
  title : String
  timestamp : String
  analysis : AnalysisResult
deriving DecidableEq

/-! ## Q&A context composition (`answerQuestionFromMeetings`,
`src/services/geminiService.ts` lines 97-106) -/

/-- The sort comparator of `geminiService.ts` line 99,
`(a, b) => new Date(a.timestamp).getTime() - new Date(b.timestamp).getTime()`.
On the fixed-format ISO-8601 timestamps `toISOString` produces (the only
timestamps the application creates), `Date.getTime` is order-isomorphic to
code-unit order of the timestamp strings, which `strLe` implements. -/
def meetingLe (a b : Meeting) : Bool :=
  strLe a.timestamp b.timestamp

instance : IsTotal Meeting (fun a b => meetingLe a b = true) :=
  ⟨fun a b => charListLe_total a.timestamp.data b.timestamp.data⟩

instance : IsTrans Meeting (fun a b => meetingLe a b = true) :=
  ⟨fun _ _ _ hab hbc => charListLe_trans hab hbc⟩

/-- `meetings.sort(comparator)`: `Array.prototype.sort` is a stable sort,
modelled by the stable `List.insertionSort`. -/
def sortMeetingsChronologically (meetings : List Meeting) : List Meeting :=
  List.insertionSort (fun a b => meetingLe a b = true) meetings

/-- One context block of the composed prompt (`geminiService.ts` lines
100-105): delimiters, title and date header, one `speaker: text` line per
turn, and the end marker.  The browser-locale date rendering
(`toLocaleString`) is abstracted to the raw timestamp string. -/
def renderMeetingBlock (m : Meeting) : String :=
  "\n---\nSTART OF TRANSCRIPT FOR MEETING: \"" ++ m.title ++ "\" (Date: " ++ m.timestamp ++
    ")\n" ++
    String.intercalate "\n" (m.analysis.transcript.map (fun t => t.speaker ++ ": " ++ t.text)) ++
    "\nEND OF TRANSCRIPT FOR MEETING: \"" ++ m.title ++ "\"\n---\n    "

/-- The ordered list of context blocks composed by
`answerQuestionFromMeetings`: sort chronologically, then render each
meeting. -/
def contextBlocks (meetings : List Meeting) : List String :=
  (sortMeetingsChronologically meetings).map renderMeetingBlock

/-- `formattedContext` of `geminiService.ts` lines 98-106: the rendered
blocks joined by blank lines. -/
def formattedContext (meetings : List Meeting) : String :=
  String.intercalate "\n\n" (contextBlocks meetings)

/-! ## Application state (`src/App.tsx`)

One record holds the `useState` slots of the `App` component that the claims
concern.  `audioFile` keeps only the file name (the only property the
modelled transitions read).  JavaScript's `Record<string, string>` objects
and `Set<string>` are modelled as association lists in insertion order and
id lists respectively. -/

inductive AppState where
  | initial
  | loading
  | success
  | error
deriving DecidableEq

inductive SectionEdit where
  | summary
  | actionItems
deriving DecidableEq

structure TranscriptEdit where
  index : Nat
  text : String
deriving DecidableEq

structure AppModel where
  error : Option String
  audioFile : Option String
  appState : AppState
  analysisResult : Option AnalysisResult
  speakerNameMap : List (String × String)
  uniqueSpeakers : List String
  editingSpeaker : Option String
  tempSpeakerName : String
  editingTranscript : Option TranscriptEdit
  editingSection : Option SectionEdit
  tempSummary : String
  tempActionItems : String
  savedMeetings : List Meeting
  selectedMeetingIds : List String
deriving DecidableEq

/-- The initial `useState` values of the `App` component. -/
def initialState : AppModel where
  error := none
  audioFile := none
  appState := AppState.initial
  analysisResult := none
  speakerNameMap := []
  uniqueSpeakers := []
  editingSpeaker := none
  tempSpeakerName := ""
  editingTranscript := none
  editingSection := none
  tempSummary := ""
  tempActionItems := ""
  savedMeetings := []
  selectedMeetingIds := []

/-- JavaScript object update `{ ...m, [k]: v }`: overwrites the value in
place when the key exists, appends the binding otherwise. -/
def jsObjSet (m : List (String × String)) (k v : String) : List (String × String) :=
  match m with
  | [] => [(k, v)]
  | (k2, v2) :: rest => if k2 = k then (k, v) :: rest else (k2, v2) :: jsObjSet rest k v

/-- `[...new Set(xs)]`: deduplication keeping first occurrences, in order. -/
def jsSetDedup (xs : List String) : List String :=
  xs.foldl (fun acc s => if s ∈ acc then acc else acc ++ [s]) []

instance : IsTotal String (fun a b => strLe a b = true) :=
  ⟨fun a b => charListLe_total a.data b.data⟩

instance : IsTrans String (fun a b => strLe a b = true) :=
  ⟨fun _ _ _ hab hbc => charListLe_trans hab hbc⟩

/-- JavaScript `Array.prototype.sort()` with no comparator on an array of
strings: stable sort in code-unit order. -/
def sortStrings (xs : List String) : List String :=
  List.insertionSort (fun a b => strLe a b = true) xs

/-- The success continuation of `processAudio` (`App.tsx` lines 93-99):
derive the sorted list of distinct raw speakers, seed the identity name map,
store the result and enter the success state. -/
def processSuccess (result : AnalysisResult) (st : AppModel) : AppModel :=
  let speakers := sortStrings (jsSetDedup (result.transcript.map (fun t => t.speaker)))
  let initialMap := speakers.foldl (fun acc speaker => jsObjSet acc speaker speaker) []
  { st with
      uniqueSpeakers := speakers
      speakerNameMap := initialMap
      analysisResult := some result
      appState := AppState.success
      error := none }

/-- `handleResetAnalysis` (`App.tsx` lines 107-120). -/
def handleResetAnalysis (st : AppModel) : AppModel :=
  { st with
      audioFile := none
      analysisResult := none
      error := none
      appState := AppState.initial
      speakerNameMap := []
      uniqueSpeakers := []
      editingSpeaker := none
      tempSpeakerName := ""
      editingTranscript := none
      editingSection := none
      tempSummary := ""
      tempActionItems := "" }

/-- JavaScript `x || y` on strings: the left value unless it is falsy
(empty). -/
def jsOrElse (v : Option String) (dflt : String) : String :=
  match v with
  | some s => if s = "" then dflt else s
  | none => dflt

/-- `handleSaveMeeting` (`App.tsx` lines 122-139).  `crypto.randomUUID()`
and `new Date().toISOString()` are external value sources, passed in as
`newId` and `now`. -/
def handleSaveMeeting (newId now : String) (st : AppModel) : AppModel :=
  match st.analysisResult, st.audioFile with
  | some res, some fileName =>
    let finalTranscript := res.transcript.map
      (fun turn => { turn with speaker := jsOrElse (List.lookup turn.speaker st.speakerNameMap) turn.speaker })
    let newMeeting : Meeting :=
      { id := newId
        title := stripExtension fileName
        timestamp := now
        analysis := { res with transcript := finalTranscript } }
    handleResetAnalysis { st with savedMeetings := st.savedMeetings ++ [newMeeting] }
  | _, _ => st

/-- `handleEditSpeaker` (`App.tsx` line 166).  `speakerNameMap[speakerId]`
is `undefined` when the key is absent; the input then renders empty, so the
absent case is modelled as the empty string. -/
def handleEditSpeaker (speakerId : String) (st : AppModel) : AppModel :=
  { st with
      editingSpeaker := some speakerId
      tempSpeakerName := (List.lookup speakerId st.speakerNameMap).getD "" }

/-- `handleCancelSpeakerEdit` (`App.tsx` line 167). -/
def handleCancelSpeakerEdit (st : AppModel) : AppModel :=
  { st with editingSpeaker := none, tempSpeakerName := "" }

/-- The `onChange` handler of the speaker-name input (`App.tsx` line 319). -/
def setTempSpeakerName (s : String) (st : AppModel) : AppModel :=
  { st with tempSpeakerName := s }

/-- `handleSaveSpeakerName` (`App.tsx` lines 168-173): commits the trimmed
name only when `editingSpeaker` and the trimmed input are both truthy (a
`null` or empty-string editing id and an all-whitespace input are all
falsy), then closes the editor. -/
def handleSaveSpeakerName (st : AppModel) : AppModel :=
  let st2 :=
    match st.editingSpeaker with
    | some sp =>
      if sp ≠ "" ∧ jsTrim st.tempSpeakerName ≠ "" then
        { st with speakerNameMap := jsObjSet st.speakerNameMap sp (jsTrim st.tempSpeakerName) }
      else st
    | none => st
  handleCancelSpeakerEdit st2

/-- `handleEditTranscript` (`App.tsx` lines 175-177). -/
def handleEditTranscript (index : Nat) (currentText : String) (st : AppModel) : AppModel :=
  { st with editingTranscript := some { index := index, text := currentText } }

/-- `handleSaveTranscript` (`App.tsx` lines 178-185): maps over the turns,
replacing the text of the turn at the edited index with the trimmed editor
text, then closes the editor; a missing editor or missing analysis returns
unchanged. -/
def handleSaveTranscript (st : AppModel) : AppModel :=
  match st.editingTranscript, st.analysisResult with
  | some e, some r =>
    let updated := r.transcript.mapIdx
      (fun idx turn => if idx = e.index then { turn with text := jsTrim e.text } else turn)
    { st with
        analysisResult := some { r with transcript := updated }
        editingTranscript := none }
  | _, _ => st

/-- `handleCancelTranscriptEdit` (`App.tsx` line 186). -/
def handleCancelTranscriptEdit (st : AppModel) : AppModel :=
  { st with editingTranscript := none }

/-- `handleEditSection` (`App.tsx` lines 188-196). -/
def handleEditSection (sec : SectionEdit) (st : AppModel) : AppModel :=
  match st.analysisResult with
  | none => st
  | some r =>
    match sec with
    | SectionEdit.summary =>
      { st with editingSection := some SectionEdit.summary, tempSummary := r.summary }
    | SectionEdit.actionItems =>
      { st with editingSection := some SectionEdit.actionItems, tempActionItems := r.actionItems }

/-- `handleDeleteMeeting` (`App.tsx` lines 222-231): behind the
`window.confirm` gate (passed in as `confirmed`), filters the meeting out of
the collection and deletes its id from the selection set. -/
def handleDeleteMeeting (meetingId : String) (confirmed : Bool) (st : AppModel) : AppModel :=
  if confirmed then
    { st with
        savedMeetings := st.savedMeetings.filter (fun m => m.id ≠ meetingId)
        selectedMeetingIds := st.selectedMeetingIds.filter (fun x => x ≠ meetingId) }
  else st

/-! ## Persistence (`App.tsx` lines 49-69)

The load effect reads the blob under the fixed key `savedMeetings`; a
missing or empty blob or a parse failure leaves the in-memory collection at
its initial empty value.  The persist effect then writes
`JSON.stringify` of the in-memory collection back under the same key.
`loadThenSave` is their composition: the blob the store holds after loading
and immediately re-saving with no intervening mutation. -/
def loadThenSave (stored : Option String) : String :=
  stringifyJson
    (match stored with
     | some s =>
       if s = "" then Json.arr JsonList.nil
       else
         match parseJson s with
         | some j => j
         | none => Json.arr JsonList.nil
     | none => Json.arr JsonList.nil)

/-! ## Supporting lemmas about the modelled primitives -/

theorem lookup_cons_self (k v : String) (tl : List (String × String)) :
    List.lookup k ((k, v) :: tl) = some v := by
  simp [List.lookup]

theorem lookup_cons_ne (k k2 v : String) (tl : List (String × String)) (h : k2 ≠ k) :
    List.lookup k2 ((k, v) :: tl) = List.lookup k2 tl := by
  show (match k2 == k with
    | true => some v
    | false => List.lookup k2 tl) = List.lookup k2 tl
  rw [show (k2 == k) = false from beq_eq_false_iff_ne.mpr h]

theorem jsSetDedup_spec (xs : List String) :
    (jsSetDedup xs).Nodup ∧ (∀ s, s ∈ jsSetDedup xs ↔ s ∈ xs) := by
  have key : ∀ (l acc : List String), acc.Nodup →
      (l.foldl (fun acc s => if s ∈ acc then acc else acc ++ [s]) acc).Nodup ∧
      (∀ s, s ∈ l.foldl (fun acc s => if s ∈ acc then acc else acc ++ [s]) acc ↔
        s ∈ acc ∨ s ∈ l) := by
    intro l
    induction l with
    | nil => intro acc h; simpa using h
    | cons x xs ih =>
      intro acc h
      by_cases hx : x ∈ acc
      · have h2 := ih acc h
        simp only [List.foldl_cons, if_pos hx]
        refine ⟨h2.1, fun s => ?_⟩
        rw [h2.2 s]
        constructor
        · rintro (hs | hs)
          · exact Or.inl hs
          · exact Or.inr (List.mem_cons_of_mem x hs)
        · rintro (hs | hs)
          · exact Or.inl hs
          · rcases List.mem_cons.mp hs with rfl | hs
            · exact Or.inl hx
            · exact Or.inr hs
      · have hacc2 : (acc ++ [x]).Nodup := by
          rw [List.nodup_append]
          refine ⟨h, List.nodup_singleton x, ?_⟩
          intro a ha hb
          rcases List.mem_singleton.mp hb with rfl
          exact hx ha
        have h2 := ih (acc ++ [x]) hacc2
        simp only [List.foldl_cons, if_neg hx]
        refine ⟨h2.1, fun s => ?_⟩
        rw [h2.2 s]
        simp only [List.mem_append, List.mem_singleton, List.mem_cons]
        tauto
  have h := key xs [] List.nodup_nil
  exact ⟨h.1, fun s => by
    rw [show jsSetDedup xs = xs.foldl (fun acc s => if s ∈ acc then acc else acc ++ [s]) []
      from rfl, h.2 s]
    simp⟩

theorem jsObjSet_append_of_not_mem (m : List (String × String)) (k v : String)
    (h : k ∉ m.map Prod.fst) : jsObjSet m k v = m ++ [(k, v)] := by
  induction m with
  | nil => rfl
  | cons p rest ih =>
    obtain ⟨k2, v2⟩ := p
    simp only [List.map_cons, List.mem_cons] at h
    push_neg at h
    have hne : ¬ (k2 = k) := fun hk => h.1 hk.symm
    show (if k2 = k then (k, v) :: rest else (k2, v2) :: jsObjSet rest k v) = _
    rw [if_neg hne, ih h.2]
    rfl

theorem foldl_jsObjSet_identity (speakers : List String) :
    ∀ acc : List (String × String), speakers.Nodup →
      (∀ s ∈ speakers, s ∉ acc.map Prod.fst) →
      speakers.foldl (fun acc speaker => jsObjSet acc speaker speaker) acc =
        acc ++ speakers.map (fun s => (s, s)) := by
  induction speakers with
  | nil => intro acc _ _; simp
  | cons s rest ih =>
    intro acc hnd hdisj
    have hs : s ∉ acc.map Prod.fst := hdisj s (List.mem_cons_self s rest)
    simp only [List.foldl_cons]
    rw [jsObjSet_append_of_not_mem acc s s hs]
    rw [ih (acc ++ [(s, s)]) (List.Nodup.of_cons hnd) ?_]
    · simp
    · intro t ht
      simp only [List.map_append, List.mem_append, List.map_cons, List.map_nil,
        List.mem_singleton]
      push_neg
      refine ⟨hdisj t (List.mem_cons_of_mem s ht), ?_⟩
      intro h
      exact (List.nodup_cons.mp hnd).1 (h ▸ ht)

theorem lookup_identity_map (us : List String) (s : String) (h : s ∈ us) :
    List.lookup s (us.map (fun s => (s, s))) = some s := by
  induction us with
  | nil => simp at h
  | cons u rest ih =>
    rcases List.mem_cons.mp h with rfl | h2
    · exact lookup_cons_self s s _
    · by_cases he : s = u
      · subst he; exact lookup_cons_self s s _
      · rw [List.map_cons, lookup_cons_ne u s u _ he]
        exact ih h2

theorem lookup_jsObjSet_self (m : List (String × String)) (k v : String) :
    List.lookup k (jsObjSet m k v) = some v := by
  induction m with
  | nil => exact lookup_cons_self k v []
  | cons p rest ih =>
    obtain ⟨k2, v2⟩ := p
    by_cases h : k2 = k
    · show List.lookup k (if k2 = k then (k, v) :: rest else (k2, v2) :: jsObjSet rest k v) =
        some v
      rw [if_pos h]
      exact lookup_cons_self k v rest
    · show List.lookup k (if k2 = k then (k, v) :: rest else (k2, v2) :: jsObjSet rest k v) =
        some v
      rw [if_neg h, lookup_cons_ne k2 k v2 _ (fun hk => h hk.symm)]
      exact ih

theorem lookup_jsObjSet_ne (m : List (String × String)) (k v k2 : String) (h : k2 ≠ k) :
    List.lookup k2 (jsObjSet m k v) = List.lookup k2 m := by
  induction m with
  | nil =>
    show List.lookup k2 [(k, v)] = List.lookup k2 []
    rw [lookup_cons_ne k k2 v [] h]
  | cons p rest ih =>
    obtain ⟨k3, v3⟩ := p
    by_cases h3 : k3 = k
    · show List.lookup k2 (if k3 = k then (k, v) :: rest else (k3, v3) :: jsObjSet rest k v) =
        List.lookup k2 ((k3, v3) :: rest)
      have h23 : k2 ≠ k3 := fun hh => h (hh.trans h3)
      rw [if_pos h3, lookup_cons_ne k k2 v rest h, lookup_cons_ne k3 k2 v3 rest h23]
    · show List.lookup k2 (if k3 = k then (k, v) :: rest else (k3, v3) :: jsObjSet rest k v) =
        List.lookup k2 ((k3, v3) :: rest)
      rw [if_neg h3]
      by_cases h4 : k2 = k3
      · subst h4
        rw [lookup_cons_self k2 v3 rest, lookup_cons_self k2 v3 (jsObjSet rest k v)]
      · rw [lookup_cons_ne k3 k2 v3 _ h4, lookup_cons_ne k3 k2 v3 _ h4]
        exact ih

/-! ## Example fixtures used by concrete scenario conjuncts -/

def januaryMeeting : Meeting :=
  { id := "id-jan"
    title := "January planning"
    timestamp := "2024-01-01T00:00:00.000Z"
    analysis :=
      { transcript := [{ speaker := "Alice", text := "January decisions" }]
        summary := "- January"
        actionItems := "- plan" } }

def marchMeeting : Meeting :=
  { id := "id-mar"
    title := "March review"
    timestamp := "2024-03-01T00:00:00.000Z"
    analysis :=
      { transcript := [{ speaker := "Alice", text := "March decisions" }]
        summary := "- March"
        actionItems := "- review" } }

def twoSpeakerResult : AnalysisResult :=
  { transcript := [
      { speaker := "Speaker 2", text := "Hello" },
      { speaker := "Speaker 1", text := "Hi" }]
    summary := "- greeting"
    actionItems := "- none" }

/-- C2: For every input sequence of meetings, the context blocks composed by
`answerQuestionFromMeetings` appear in non-decreasing timestamp order
(chronologically ascending for the application's ISO-8601 timestamps)
regardless of the order of the `meetings` argument: the rendered block list
is exactly the rendering of a timestamp-sorted permutation of the input;
in particular, meetings dated 2024-01-01 and 2024-03-01 supplied in reverse
order still yield the January block before the March block. -/
theorem c2_context_blocks_chronological :
    (∀ meetings : List Meeting,
      List.Sorted (fun a b : Meeting => strLe a.timestamp b.timestamp = true)
        (sortMeetingsChronologically meetings) ∧
      (sortMeetingsChronologically meetings).Perm meetings ∧
      contextBlocks meetings = (sortMeetingsChronologically meetings).map renderMeetingBlock) ∧
    contextBlocks [marchMeeting, januaryMeeting] =
      [renderMeetingBlock januaryMeeting, renderMeetingBlock marchMeeting] := by
  constructor
  · intro ms
    exact ⟨List.sorted_insertionSort (fun a b : Meeting => meetingLe a b = true) ms,
      List.perm_insertionSort _ ms, rfl⟩
  · have h : sortMeetingsChronologically [marchMeeting, januaryMeeting] =
        [januaryMeeting, marchMeeting] := by decide
    rw [contextBlocks, h]
    rfl

/-- C5: On entering the success state from a successful analyze call, the
discovered-speakers list is the set of distinct raw speaker identifiers of
the transcript sorted lexically, and the speaker name map identity-maps each
discovered identifier to itself; the two-speaker scenario yields
`["Speaker 1", "Speaker 2"]` and the identity map on those two labels. -/
theorem c5_speakers_sorted_identity_map :
    (∀ (result : AnalysisResult) (st : AppModel),
      List.Sorted (fun a b : String => strLe a b = true) (processSuccess result st).uniqueSpeakers ∧
      (processSuccess result st).uniqueSpeakers.Nodup ∧
      (∀ s, s ∈ (processSuccess result st).uniqueSpeakers ↔
        s ∈ result.transcript.map (fun t => t.speaker)) ∧
      (processSuccess result st).speakerNameMap =
        (processSuccess result st).uniqueSpeakers.map (fun s => (s, s)) ∧
      (∀ s, s ∈ (processSuccess result st).uniqueSpeakers →
        List.lookup s (processSuccess result st).speakerNameMap = some s) ∧
      (processSuccess result st).analysisResult = some result ∧
      (processSuccess result st).appState = AppState.success) ∧
    (processSuccess twoSpeakerResult initialState).uniqueSpeakers = ["Speaker 1", "Speaker 2"] ∧
    (processSuccess twoSpeakerResult initialState).speakerNameMap =
      [("Speaker 1", "Speaker 1"), ("Speaker 2", "Speaker 2")] := by
  refine ⟨?_, by decide, by decide⟩
  intro result st
  have hdedup := jsSetDedup_spec (result.transcript.map (fun t => t.speaker))
  have hperm : (sortStrings (jsSetDedup (result.transcript.map (fun t => t.speaker)))).Perm
      (jsSetDedup (result.transcript.map (fun t => t.speaker))) := by
    unfold sortStrings
    exact List.perm_insertionSort _ _
  have hnodup : (sortStrings (jsSetDedup (result.transcript.map (fun t => t.speaker)))).Nodup :=
    hperm.nodup_iff.mpr hdedup.1
  have hmap : (processSuccess result st).speakerNameMap =
      (processSuccess result st).uniqueSpeakers.map (fun s => (s, s)) := by
    show (sortStrings (jsSetDedup (result.transcript.map (fun t => t.speaker)))).foldl
        (fun acc speaker => jsObjSet acc speaker speaker) [] = _
    rw [foldl_jsObjSet_identity _ [] hnodup (by simp)]
    rfl
  refine ⟨List.sorted_insertionSort _ _, hnodup, ?_, hmap, ?_, rfl, rfl⟩
  · intro s
    show s ∈ sortStrings (jsSetDedup (result.transcript.map (fun t => t.speaker))) ↔ _
    rw [hperm.mem_iff, hdedup.2 s]
  · intro s hs
    rw [hmap]
    exact lookup_identity_map _ s hs

/-! ## Claims about the analyze response validation (C1, C10) -/

/-- A payload whose three required fields are present and truthy but whose
transcript is a bare string rather than a sequence of speaker turns. -/
def malformedTranscriptPayload : Json :=
  Json.obj (JsonMembers.cons ("transcript") (Json.str ("oops"))
    (JsonMembers.cons ("summary") (Json.str ("- point"))
      (JsonMembers.cons ("actionItems") (Json.str ("- task")) JsonMembers.nil)))

/-- A fully well-formed payload (one valid speaker turn, nonempty summary
and action items). -/
def wellFormedPayload : Json :=
  Json.obj (JsonMembers.cons ("transcript")
    (Json.arr (JsonList.cons
      (Json.obj (JsonMembers.cons ("speaker") (Json.str ("Speaker 1"))
        (JsonMembers.cons ("text") (Json.str ("Hello")) JsonMembers.nil)))
      JsonList.nil))
    (JsonMembers.cons ("summary") (Json.str ("- greeting"))
      (JsonMembers.cons ("actionItems") (Json.str ("- none")) JsonMembers.nil)))

/-- C1 counterexample: a response whose `transcript` field is the string
`"oops"` — not a well-formed sequence of `{speaker, text}` pairs — passes
the validation, and `analyzeMeetingAudio` returns it as a success instead of
failing. -/
theorem c1_counterexample :
    analyzeMeetingAudio (some (stringifyJson malformedTranscriptPayload)) =
      Except.ok malformedTranscriptPayload ∧
    specWellFormedTranscript (jsonGetField malformedTranscriptPayload ("transcript")) = false := by
  exact ⟨rfl, rfl⟩

/-- C1 (amended): `analyzeMeetingAudio` fails when `transcript`, `summary`
or `actionItems` is absent or null (more generally, falsy), and succeeds —
returning the parsed payload unchanged — exactly when all three fields are
truthy; the shape of the transcript is not examined. -/
theorem c1_validation_truthiness_only (s : String) (j : Json)
    (hp : parseJson s = some j) (hs : s ≠ "") :
    (analyzeMeetingAudio (some s) = Except.ok j ↔ validateAnalysis j = true) ∧
    ((jsonGetField j ("transcript") = none ∨ jsonGetField j ("transcript") = some Json.null) →
      analyzeMeetingAudio (some s) = Except.error apiFailureMsg) ∧
    ((jsonGetField j ("summary") = none ∨ jsonGetField j ("summary") = some Json.null) →
      analyzeMeetingAudio (some s) = Except.error apiFailureMsg) ∧
    ((jsonGetField j ("actionItems") = none ∨ jsonGetField j ("actionItems") = some Json.null) →
      analyzeMeetingAudio (some s) = Except.error apiFailureMsg) := by
  have he : analyzeMeetingAudio (some s) =
      if validateAnalysis j then Except.ok j else Except.error apiFailureMsg := by
    simp [analyzeMeetingAudio, hs, hp]
  refine ⟨?_, ?_, ?_, ?_⟩
  · rw [he]
    by_cases hv : validateAnalysis j = true
    · simp [hv]
    · simp [hv]
  · intro hf
    rw [he, if_neg ?_]
    rcases hf with hf | hf <;>
      simp [validateAnalysis, hf, jsTruthy]
  · intro hf
    rw [he, if_neg ?_]
    rcases hf with hf | hf <;>
      simp [validateAnalysis, hf, jsTruthy]
  · intro hf
    rw [he, if_neg ?_]
    rcases hf with hf | hf <;>
      simp [validateAnalysis, hf, jsTruthy]

/-- Witness for the amended C1 theorem at a concrete well-formed payload. -/
theorem c1_validation_truthiness_only_witness :
    (analyzeMeetingAudio (some (stringifyJson wellFormedPayload)) = Except.ok wellFormedPayload ↔
      validateAnalysis wellFormedPayload = true) ∧
    ((jsonGetField wellFormedPayload ("transcript") = none ∨
      jsonGetField wellFormedPayload ("transcript") = some Json.null) →
      analyzeMeetingAudio (some (stringifyJson wellFormedPayload)) = Except.error apiFailureMsg) ∧
    ((jsonGetField wellFormedPayload ("summary") = none ∨
      jsonGetField wellFormedPayload ("summary") = some Json.null) →
      analyzeMeetingAudio (some (stringifyJson wellFormedPayload)) = Except.error apiFailureMsg) ∧
    ((jsonGetField wellFormedPayload ("actionItems") = none ∨
      jsonGetField wellFormedPayload ("actionItems") = some Json.null) →
      analyzeMeetingAudio (some (stringifyJson wellFormedPayload)) = Except.error apiFailureMsg) :=
  c1_validation_truthiness_only (stringifyJson wellFormedPayload) wellFormedPayload rfl
    (by decide)

/-- A payload with all three fields present and non-null whose `summary` is
the empty string. -/
def emptySummaryPayload : Json :=
  Json.obj (JsonMembers.cons ("transcript")
    (Json.arr (JsonList.cons
      (Json.obj (JsonMembers.cons ("speaker") (Json.str ("Speaker 1"))
        (JsonMembers.cons ("text") (Json.str ("Hello")) JsonMembers.nil)))
      JsonList.nil))
    (JsonMembers.cons ("summary") (Json.str (""))
      (JsonMembers.cons ("actionItems") (Json.str ("- follow up")) JsonMembers.nil)))

/-- C10: a response whose `transcript`, `summary` and `actionItems` fields
are all present and non-null but whose `summary` is the empty string is
rejected by `analyzeMeetingAudio`: presence is tested by truthiness, and an
empty string is falsy. -/
theorem c10_empty_string_field_rejected :
    jsonGetField emptySummaryPayload ("transcript") ≠ none ∧
    jsonGetField emptySummaryPayload ("transcript") ≠ some Json.null ∧
    jsonGetField emptySummaryPayload ("summary") = some (Json.str ("")) ∧
    jsonGetField emptySummaryPayload ("actionItems") = some (Json.str ("- follow up")) ∧
    analyzeMeetingAudio (some (stringifyJson emptySummaryPayload)) =
      Except.error apiFailureMsg := by
  refine ⟨by decide, by decide, rfl, rfl, rfl⟩

/-! ## C9: persistence round trip -/

/-- C9 counterexample: the persisted blob `"[ ]"` (an empty array written
with an inner space) loads successfully, and the immediate re-save writes
`"[]"` — not byte-identical, and the difference is whitespace, not key
ordering (the blob contains no object keys at all). -/
theorem c9_counterexample :
    loadThenSave (some ("[ ]")) = "[]" ∧ ("[]" : String) ≠ "[ ]" := by
  exact ⟨rfl, by decide⟩

/-- C9 (amended): saving immediately after loading rewrites the blob to the
canonical compact serialization of the loaded value; on any blob that is
itself such a canonical serialization — in particular every blob this
application's own save path wrote — the rewrite is byte-identical. -/
theorem c9_save_after_load_canonical (j : Json) :
    loadThenSave (some (stringifyJson j)) = stringifyJson j := by
  have hne : stringifyJson j ≠ "" := by
    obtain ⟨c, t, h, -, -, -⟩ := stringifyVal_head j
    intro contra
    have hdata := congrArg String.data contra
    rw [show (stringifyJson j).data = stringifyVal j from rfl, h] at hdata
    simp at hdata
  rw [loadThenSave]
  rw [if_neg hne, parseJson_stringifyJson]

/-- Witness for the amended C9 theorem: re-saving the canonical blob of a
one-meeting collection reproduces it byte for byte. -/
theorem c9_save_after_load_canonical_witness :
    loadThenSave (some (stringifyJson (Json.arr (JsonList.cons (Json.str ("m1")) JsonList.nil)))) =
      stringifyJson (Json.arr (JsonList.cons (Json.str ("m1")) JsonList.nil)) :=
  c9_save_after_load_canonical (Json.arr (JsonList.cons (Json.str ("m1")) JsonList.nil))

/-! ## C4: editor exclusivity -/

def c4Result : AnalysisResult :=
  { transcript := [
      { speaker := "Speaker 1", text := "Hello" },
      { speaker := "Speaker 2", text := "Hi" }]
    summary := "- s"
    actionItems := "- a" }

/-- A reachable state: a successful analysis, then the speaker editor is
opened on `"Speaker 1"` and `"Alice"` typed into it, then the transcript
editor is opened on turn 0 without any intervening commit or cancel. -/
def c4TwoEditors : AppModel :=
  handleEditTranscript 0 ("edited") (setTempSpeakerName ("Alice")
    (handleEditSpeaker ("Speaker 1") (processSuccess c4Result initialState)))

/-- C4 counterexample: after the handler sequence of `c4TwoEditors`, the
speaker editor and the transcript editor are open simultaneously, and the
speaker editor's unsaved text is still present — opening the new editor
neither closed the previous one nor discarded its text. -/
theorem c4_counterexample :
    c4TwoEditors.editingSpeaker = some ("Speaker 1") ∧
    c4TwoEditors.editingTranscript = some { index := 0, text := "edited" } ∧
    c4TwoEditors.tempSpeakerName = "Alice" := by
  refine ⟨by decide, by decide, by decide⟩

/-- C4 (amended): the three open-editor fields are independent; each
opening handler sets only its own editor and leaves the other editors and
their pending text untouched, so mutual exclusion is not enforced by the
state transitions (in the rendered page it arises only from the focused
editor's blur handler, which commits — rather than discards — pending text
before a new editor opens). -/
theorem c4_editor_fields_independent (st : AppModel) (sp : String) (i : Nat) (txt : String)
    (sec : SectionEdit) :
    (handleEditSpeaker sp st).editingTranscript = st.editingTranscript ∧
    (handleEditSpeaker sp st).editingSection = st.editingSection ∧
    (handleEditTranscript i txt st).editingSpeaker = st.editingSpeaker ∧
    (handleEditTranscript i txt st).editingSection = st.editingSection ∧
    (handleEditTranscript i txt st).tempSpeakerName = st.tempSpeakerName ∧
    (handleEditSection sec st).editingSpeaker = st.editingSpeaker ∧
    (handleEditSection sec st).editingTranscript = st.editingTranscript := by
  refine ⟨rfl, rfl, rfl, rfl, rfl, ?_, ?_⟩ <;>
    cases h : st.analysisResult <;> cases sec <;> simp [handleEditSection, h]

/-- Witness for the amended C4 theorem at a concrete reachable state. -/
theorem c4_editor_fields_independent_witness :
    (handleEditSpeaker ("Speaker 1") c4TwoEditors).editingTranscript =
      c4TwoEditors.editingTranscript ∧
    (handleEditSpeaker ("Speaker 1") c4TwoEditors).editingSection = c4TwoEditors.editingSection ∧
    (handleEditTranscript 1 ("x") c4TwoEditors).editingSpeaker = c4TwoEditors.editingSpeaker ∧
    (handleEditTranscript 1 ("x") c4TwoEditors).editingSection = c4TwoEditors.editingSection ∧
    (handleEditTranscript 1 ("x") c4TwoEditors).tempSpeakerName = c4TwoEditors.tempSpeakerName ∧
    (handleEditSection SectionEdit.summary c4TwoEditors).editingSpeaker =
      c4TwoEditors.editingSpeaker ∧
    (handleEditSection SectionEdit.summary c4TwoEditors).editingTranscript =
      c4TwoEditors.editingTranscript :=
  c4_editor_fields_independent c4TwoEditors ("Speaker 1") 1 ("x") SectionEdit.summary

/-! ## C6: speaker-name commit -/

def c6Result : AnalysisResult :=
  { transcript := [{ speaker := "", text := "mystery voice" }]
    summary := "- s"
    actionItems := "- a" }

/-- A reachable state in which the speaker editor is open on the
empty-string speaker identifier and `"Bob"` has been typed. -/
def c6EmptyIdState : AppModel :=
  setTempSpeakerName ("Bob") (handleEditSpeaker ("")
    (processSuccess c6Result initialState))

/-- C6 counterexample: a speaker-name edit is open (on the discovered
empty-string speaker id), the input trims to the nonempty `"Bob"`, yet the
commit leaves the speaker name map entirely unchanged — the handler's
truthiness test on `editingSpeaker` drops the update for the falsy id. -/
theorem c6_counterexample :
    c6EmptyIdState.uniqueSpeakers = [""] ∧
    c6EmptyIdState.editingSpeaker = some ("") ∧
    jsTrim c6EmptyIdState.tempSpeakerName = "Bob" ∧
    (handleSaveSpeakerName c6EmptyIdState).speakerNameMap = c6EmptyIdState.speakerNameMap ∧
    List.lookup ("") (handleSaveSpeakerName c6EmptyIdState).speakerNameMap = some ("") := by
  refine ⟨by decide, by decide, by decide, by decide, by decide⟩

/-- C6 (amended): provided the speaker identifier under edit is nonempty,
committing with input whose trim is nonempty sets exactly that speaker's
map entry to the trimmed text and leaves every other entry, and the
transcript, unchanged; committing with input whose trim is empty leaves the
map entirely unchanged; either way the editor closes. -/
theorem c6_speaker_commit (st : AppModel) (sp : String)
    (hsp : st.editingSpeaker = some sp) (hne : sp ≠ "") :
    (jsTrim st.tempSpeakerName ≠ "" →
      (handleSaveSpeakerName st).speakerNameMap =
        jsObjSet st.speakerNameMap sp (jsTrim st.tempSpeakerName) ∧
      List.lookup sp (handleSaveSpeakerName st).speakerNameMap =
        some (jsTrim st.tempSpeakerName) ∧
      (∀ k, k ≠ sp → List.lookup k (handleSaveSpeakerName st).speakerNameMap =
        List.lookup k st.speakerNameMap)) ∧
    (jsTrim st.tempSpeakerName = "" →
      (handleSaveSpeakerName st).speakerNameMap = st.speakerNameMap) ∧
    (handleSaveSpeakerName st).analysisResult = st.analysisResult ∧
    (handleSaveSpeakerName st).editingSpeaker = none ∧
    (handleSaveSpeakerName st).tempSpeakerName = "" := by
  refine ⟨?_, ?_, ?_, ?_, ?_⟩
  · intro ht
    have hred : (handleSaveSpeakerName st).speakerNameMap =
        jsObjSet st.speakerNameMap sp (jsTrim st.tempSpeakerName) := by
      simp [handleSaveSpeakerName, hsp, hne, ht, handleCancelSpeakerEdit]
    refine ⟨hred, ?_, ?_⟩
    · rw [hred]
      exact lookup_jsObjSet_self _ _ _
    · intro k hk
      rw [hred]
      exact lookup_jsObjSet_ne _ _ _ _ hk
  · intro ht
    simp [handleSaveSpeakerName, hsp, ht, handleCancelSpeakerEdit]
  · simp [handleSaveSpeakerName, hsp, handleCancelSpeakerEdit]
    split <;> rfl
  · simp [handleSaveSpeakerName, handleCancelSpeakerEdit]
  · simp [handleSaveSpeakerName, handleCancelSpeakerEdit]

def c6GoodResult : AnalysisResult :=
  { transcript := [{ speaker := "Speaker 1", text := "Hello" }]
    summary := "- s"
    actionItems := "- a" }

/-- Witness for the amended C6 theorem: committing `" Alice "` for
`"Speaker 1"` stores `"Alice"`. -/
theorem c6_speaker_commit_witness :
    (jsTrim (setTempSpeakerName (" Alice ") (handleEditSpeaker ("Speaker 1")
        (processSuccess c6GoodResult initialState))).tempSpeakerName ≠ "" →
      (handleSaveSpeakerName (setTempSpeakerName (" Alice ") (handleEditSpeaker ("Speaker 1")
        (processSuccess c6GoodResult initialState)))).speakerNameMap =
        jsObjSet (setTempSpeakerName (" Alice ") (handleEditSpeaker ("Speaker 1")
          (processSuccess c6GoodResult initialState))).speakerNameMap ("Speaker 1")
          (jsTrim (setTempSpeakerName (" Alice ") (handleEditSpeaker ("Speaker 1")
            (processSuccess c6GoodResult initialState))).tempSpeakerName) ∧
      List.lookup ("Speaker 1")
        (handleSaveSpeakerName (setTempSpeakerName (" Alice ") (handleEditSpeaker ("Speaker 1")
          (processSuccess c6GoodResult initialState)))).speakerNameMap =
        some (jsTrim (setTempSpeakerName (" Alice ") (handleEditSpeaker ("Speaker 1")
          (processSuccess c6GoodResult initialState))).tempSpeakerName) ∧
      (∀ k, k ≠ "Speaker 1" →
        List.lookup k (handleSaveSpeakerName (setTempSpeakerName (" Alice ")
          (handleEditSpeaker ("Speaker 1") (processSuccess c6GoodResult initialState)))).speakerNameMap =
        List.lookup k (setTempSpeakerName (" Alice ") (handleEditSpeaker ("Speaker 1")
          (processSuccess c6GoodResult initialState))).speakerNameMap)) ∧
    (jsTrim (setTempSpeakerName (" Alice ") (handleEditSpeaker ("Speaker 1")
        (processSuccess c6GoodResult initialState))).tempSpeakerName = "" →
      (handleSaveSpeakerName (setTempSpeakerName (" Alice ") (handleEditSpeaker ("Speaker 1")
        (processSuccess c6GoodResult initialState)))).speakerNameMap =
        (setTempSpeakerName (" Alice ") (handleEditSpeaker ("Speaker 1")
          (processSuccess c6GoodResult initialState))).speakerNameMap) ∧
    (handleSaveSpeakerName (setTempSpeakerName (" Alice ") (handleEditSpeaker ("Speaker 1")
      (processSuccess c6GoodResult initialState)))).analysisResult =
      (setTempSpeakerName (" Alice ") (handleEditSpeaker ("Speaker 1")
        (processSuccess c6GoodResult initialState))).analysisResult ∧
    (handleSaveSpeakerName (setTempSpeakerName (" Alice ") (handleEditSpeaker ("Speaker 1")
      (processSuccess c6GoodResult initialState)))).editingSpeaker = none ∧
    (handleSaveSpeakerName (setTempSpeakerName (" Alice ") (handleEditSpeaker ("Speaker 1")
      (processSuccess c6GoodResult initialState)))).tempSpeakerName = "" :=
  c6_speaker_commit
    (setTempSpeakerName (" Alice ") (handleEditSpeaker ("Speaker 1")
      (processSuccess c6GoodResult initialState)))
    ("Speaker 1") (by decide) (by decide)

/-! ## C7: transcript-turn edit frame -/

/-- C7: committing a transcript-turn edit at index `i` sets turn `i`'s text
to the trimmed input (including to the empty string), preserves its speaker,
and leaves every other turn, the turn count, the turn order, the summary and
the action items unchanged; the editor closes. -/
theorem c7_transcript_edit_frame (st : AppModel) (e : TranscriptEdit) (r : AnalysisResult)
    (he : st.editingTranscript = some e) (hr : st.analysisResult = some r) :
    ∃ r2, (handleSaveTranscript st).analysisResult = some r2 ∧
      (handleSaveTranscript st).editingTranscript = none ∧
      r2.summary = r.summary ∧
      r2.actionItems = r.actionItems ∧
      r2.transcript.length = r.transcript.length ∧
      (∀ i (h1 : i < r.transcript.length) (h2 : i < r2.transcript.length),
        (r2.transcript[i]).speaker = (r.transcript[i]).speaker) ∧
      (∀ i (h1 : i < r.transcript.length) (h2 : i < r2.transcript.length), i ≠ e.index →
        r2.transcript[i] = r.transcript[i]) ∧
      (∀ (_h1 : e.index < r.transcript.length) (h2 : e.index < r2.transcript.length),
        (r2.transcript[e.index]).text = jsTrim e.text) := by
  refine ⟨{ r with
      transcript := r.transcript.mapIdx
        (fun idx turn => if idx = e.index then { turn with text := jsTrim e.text } else turn) },
    ?_, ?_, rfl, rfl, ?_, ?_, ?_, ?_⟩
  · simp [handleSaveTranscript, he, hr]
  · simp [handleSaveTranscript, he, hr]
  · simp
  · intro i h1 h2
    rw [List.getElem_mapIdx]
    split <;> rfl
  · intro i h1 h2 hne
    rw [List.getElem_mapIdx, if_neg hne]
  · intro _h1 h2
    rw [List.getElem_mapIdx, if_pos rfl]

def c7Result : AnalysisResult :=
  { transcript := [
      { speaker := "Speaker 1", text := "old text" },
      { speaker := "Speaker 2", text := "other" }]
    summary := "- s"
    actionItems := "- a" }

/-- Witness for the C7 theorem at a concrete state with a pending edit of
turn 0. -/
theorem c7_transcript_edit_frame_witness :
    ∃ r2, (handleSaveTranscript (handleEditTranscript 0 ("  new text  ")
        (processSuccess c7Result initialState))).analysisResult = some r2 ∧
      (handleSaveTranscript (handleEditTranscript 0 ("  new text  ")
        (processSuccess c7Result initialState))).editingTranscript = none ∧
      r2.summary = c7Result.summary ∧
      r2.actionItems = c7Result.actionItems ∧
      r2.transcript.length = c7Result.transcript.length ∧
      (∀ i (h1 : i < c7Result.transcript.length) (h2 : i < r2.transcript.length),
        (r2.transcript[i]).speaker = (c7Result.transcript[i]).speaker) ∧
      (∀ i (h1 : i < c7Result.transcript.length) (h2 : i < r2.transcript.length), i ≠ 0 →
        r2.transcript[i] = c7Result.transcript[i]) ∧
      (∀ (_h1 : 0 < c7Result.transcript.length) (h2 : 0 < r2.transcript.length),
        (r2.transcript[0]).text = jsTrim ("  new text  ")) :=
  c7_transcript_edit_frame
    (handleEditTranscript 0 ("  new text  ") (processSuccess c7Result initialState))
    { index := 0, text := "  new text  " } c7Result (by decide) (by decide)

/-! ## C8: meeting deletion -/

/-- C8: a confirmed deletion removes every meeting with the given id from
the collection and the id from the selection set; under the reachable-state
invariant that every selected id names a saved meeting, the selection
afterwards contains no id absent from the collection; meetings with other
ids and other selected ids are untouched. -/
theorem c8_delete_meeting (st : AppModel) (mid : String)
    (hinv : ∀ x ∈ st.selectedMeetingIds, ∃ m ∈ st.savedMeetings, m.id = x) :
    (∀ m ∈ (handleDeleteMeeting mid true st).savedMeetings, m.id ≠ mid) ∧
    mid ∉ (handleDeleteMeeting mid true st).selectedMeetingIds ∧
    (∀ x ∈ (handleDeleteMeeting mid true st).selectedMeetingIds,
      ∃ m ∈ (handleDeleteMeeting mid true st).savedMeetings, m.id = x) ∧
    (∀ m ∈ st.savedMeetings, m.id ≠ mid → m ∈ (handleDeleteMeeting mid true st).savedMeetings) ∧
    (∀ x ∈ st.selectedMeetingIds, x ≠ mid →
      x ∈ (handleDeleteMeeting mid true st).selectedMeetingIds) := by
  have hs : (handleDeleteMeeting mid true st).savedMeetings =
      st.savedMeetings.filter (fun m => m.id ≠ mid) := rfl
  have hsel : (handleDeleteMeeting mid true st).selectedMeetingIds =
      st.selectedMeetingIds.filter (fun x => x ≠ mid) := rfl
  refine ⟨?_, ?_, ?_, ?_, ?_⟩
  · intro m hm
    rw [hs] at hm
    have := (List.mem_filter.mp hm).2
    simpa using this
  · rw [hsel]
    intro hm
    have := (List.mem_filter.mp hm).2
    simp at this
  · intro x hx
    rw [hsel] at hx
    obtain ⟨hx1, hx2⟩ := List.mem_filter.mp hx
    have hxne : x ≠ mid := by simpa using hx2
    obtain ⟨m, hm, hmid⟩ := hinv x hx1
    refine ⟨m, ?_, hmid⟩
    rw [hs]
    exact List.mem_filter.mpr ⟨hm, by simp [hmid, hxne]⟩
  · intro m hm hne
    rw [hs]
    exact List.mem_filter.mpr ⟨hm, by simp [hne]⟩
  · intro x hx hne
    rw [hsel]
    exact List.mem_filter.mpr ⟨hx, by simp [hne]⟩

def c8StateBefore : AppModel :=
  { initialState with
      savedMeetings := [januaryMeeting, marchMeeting]
      selectedMeetingIds := ["id-jan", "id-mar"] }

/-- Witness for the C8 theorem: deleting the selected January meeting from a
two-meeting collection. -/
theorem c8_delete_meeting_witness :
    (∀ m ∈ (handleDeleteMeeting ("id-jan") true c8StateBefore).savedMeetings, m.id ≠ "id-jan") ∧
    "id-jan" ∉ (handleDeleteMeeting ("id-jan") true c8StateBefore).selectedMeetingIds ∧
    (∀ x ∈ (handleDeleteMeeting ("id-jan") true c8StateBefore).selectedMeetingIds,
      ∃ m ∈ (handleDeleteMeeting ("id-jan") true c8StateBefore).savedMeetings, m.id = x) ∧
    (∀ m ∈ c8StateBefore.savedMeetings, m.id ≠ "id-jan" →
      m ∈ (handleDeleteMeeting ("id-jan") true c8StateBefore).savedMeetings) ∧
    (∀ x ∈ c8StateBefore.selectedMeetingIds, x ≠ "id-jan" →
      x ∈ (handleDeleteMeeting ("id-jan") true c8StateBefore).selectedMeetingIds) :=
  c8_delete_meeting c8StateBefore ("id-jan") (by decide)

/-! ## C3: the save transition -/

/-- C3: saving a ready analysis folds the speaker name map onto every
transcript turn (mapped display name, falling back to the raw identifier
when unmapped), appends one meeting carrying the injected fresh id, the
file name with its extension stripped as title and the injected current
timestamp, and resets the analysis state; the fresh id is unique in the
resulting collection.  The two modelling hypotheses record what reachable
states guarantee: the name map never maps a nonempty identifier to the
empty string (entries are seeded as identities and commits require nonempty
trimmed text), and `crypto.randomUUID` yields an id distinct from every
saved one. -/
theorem c3_save_meeting (st : AppModel) (res : AnalysisResult) (fileName newId now : String)
    (hr : st.analysisResult = some res) (hf : st.audioFile = some fileName)
    (hmap : ∀ k, List.lookup k st.speakerNameMap = some "" → k = "")
    (hfresh : ∀ m ∈ st.savedMeetings, m.id ≠ newId) :
    (handleSaveMeeting newId now st).savedMeetings =
      st.savedMeetings ++
        [{ id := newId
           title := stripExtension fileName
           timestamp := now
           analysis :=
             { res with
                 transcript := res.transcript.map
                   (fun t => { t with
                     speaker := (List.lookup t.speaker st.speakerNameMap).getD t.speaker }) } }] ∧
    ((handleSaveMeeting newId now st).savedMeetings.filter (fun m => m.id = newId)).length = 1 ∧
    (handleSaveMeeting newId now st).analysisResult = none ∧
    (handleSaveMeeting newId now st).appState = AppState.initial ∧
    (handleSaveMeeting newId now st).audioFile = none ∧
    (handleSaveMeeting newId now st).speakerNameMap = [] ∧
    (handleSaveMeeting newId now st).editingSpeaker = none ∧
    (handleSaveMeeting newId now st).editingTranscript = none ∧
    (handleSaveMeeting newId now st).editingSection = none := by
  have hfold : ∀ t : SpeakerTurn,
      jsOrElse (List.lookup t.speaker st.speakerNameMap) t.speaker =
        (List.lookup t.speaker st.speakerNameMap).getD t.speaker := by
    intro t
    cases hl : List.lookup t.speaker st.speakerNameMap with
    | none => rfl
    | some v =>
      show (if v = "" then t.speaker else v) = v
      by_cases hv : v = ""
      · subst hv
        rw [if_pos rfl]
        exact hmap t.speaker hl
      · rw [if_neg hv]
  have hmain : (handleSaveMeeting newId now st).savedMeetings =
      st.savedMeetings ++
        [{ id := newId
           title := stripExtension fileName
           timestamp := now
           analysis :=
             { res with
                 transcript := res.transcript.map
                   (fun t => { t with
                     speaker := (List.lookup t.speaker st.speakerNameMap).getD t.speaker }) } }] := by
    simp only [handleSaveMeeting, hr, hf, handleResetAnalysis]
    have hcongr : res.transcript.map
        (fun turn => { turn with
          speaker := jsOrElse (List.lookup turn.speaker st.speakerNameMap) turn.speaker }) =
        res.transcript.map
        (fun t => { t with
          speaker := (List.lookup t.speaker st.speakerNameMap).getD t.speaker }) :=
      List.map_congr_left (fun t _ => by rw [hfold t])
    rw [hcongr]
  refine ⟨hmain, ?_, ?_, ?_, ?_, ?_, ?_, ?_, ?_⟩
  · rw [hmain, List.filter_append]
    have h1 : st.savedMeetings.filter (fun m => decide (m.id = newId)) = [] := by
      rw [List.filter_eq_nil_iff]
      intro m hm
      simp [hfresh m hm]
    rw [h1]
    simp
  all_goals simp [handleSaveMeeting, hr, hf, handleResetAnalysis]

def c3Existing : Meeting :=
  { id := "id-existing"
    title := "earlier"
    timestamp := "2024-01-05T00:00:00.000Z"
    analysis :=
      { transcript := [{ speaker := "Alice", text := "notes" }]
        summary := "- old"
        actionItems := "- old item" } }

def c3Result : AnalysisResult :=
  { transcript := [
      { speaker := "Speaker 1", text := "Welcome" },
      { speaker := "Speaker 2", text := "Thanks" }]
    summary := "- intro"
    actionItems := "- follow up" }

def c3StateBefore : AppModel :=
  { initialState with
      analysisResult := some c3Result
      audioFile := some ("weekly sync.mp3")
      savedMeetings := [c3Existing] }

/-- Witness for the C3 theorem at a concrete ready state with one
previously saved meeting. -/
theorem c3_save_meeting_witness :
    (handleSaveMeeting ("id-fresh") ("2024-04-01T10:00:00.000Z") c3StateBefore).savedMeetings =
      c3StateBefore.savedMeetings ++
        [{ id := "id-fresh"
           title := stripExtension ("weekly sync.mp3")
           timestamp := "2024-04-01T10:00:00.000Z"
           analysis :=
             { c3Result with
                 transcript := c3Result.transcript.map
                   (fun t => { t with
                     speaker :=
                       (List.lookup t.speaker c3StateBefore.speakerNameMap).getD t.speaker }) } }] ∧
    (((handleSaveMeeting ("id-fresh") ("2024-04-01T10:00:00.000Z")
        c3StateBefore).savedMeetings.filter (fun m => m.id = "id-fresh")).length = 1) ∧
    (handleSaveMeeting ("id-fresh") ("2024-04-01T10:00:00.000Z") c3StateBefore).analysisResult =
      none ∧
    (handleSaveMeeting ("id-fresh") ("2024-04-01T10:00:00.000Z") c3StateBefore).appState =
      AppState.initial ∧
    (handleSaveMeeting ("id-fresh") ("2024-04-01T10:00:00.000Z") c3StateBefore).audioFile = none ∧
    (handleSaveMeeting ("id-fresh") ("2024-04-01T10:00:00.000Z") c3StateBefore).speakerNameMap =
      [] ∧
    (handleSaveMeeting ("id-fresh") ("2024-04-01T10:00:00.000Z") c3StateBefore).editingSpeaker =
      none ∧
    (handleSaveMeeting ("id-fresh") ("2024-04-01T10:00:00.000Z")
      c3StateBefore).editingTranscript = none ∧
    (handleSaveMeeting ("id-fresh") ("2024-04-01T10:00:00.000Z") c3StateBefore).editingSection =
      none :=
  c3_save_meeting c3StateBefore c3Result ("weekly sync.mp3") ("id-fresh")
    ("2024-04-01T10:00:00.000Z") rfl rfl
    (fun k hk => by
      have hempty : List.lookup k c3StateBefore.speakerNameMap = none := rfl
      rw [hempty] at hk
      exact absurd hk (by simp))
    (by decide)
